import Mathlib

/-!
Verification of the gaitalytics feature-calculation engine
(`gaitalytics/features.py`) against its natural-language specification.

The embedding translates the Python source into Lean:
* event tables are lists of rows carrying (context, label, time) with the
  trial-level attributes `context` and `cycle_id`;
* numpy/pandas floats are modelled as exact rationals (`ℚ`);
* raising a Python exception is modelled as returning `Except.error`;
* labelled 1-D / 2-D xarray DataArrays are modelled as label lists paired
  with data lists.

External collaborators of the core that live outside the provided source
tree (the linear-algebra utilities, the marker/geometry accessor and the
local-minima finder) are modelled from the specification; each such
definition is marked `Modelled from the spec:` in its doc comment.
-/

/-- Gait event labels (`gaitalytics.events.FOOT_STRIKE` / `FOOT_OFF`).
Modelled from the spec: rows carry `label ∈ {FOOT_STRIKE, FOOT_OFF}`. -/
inductive EventLabel where
  | footStrike
  | footOff
  deriving DecidableEq, Repr

/-- One row of a cycle's event table: (context, label, time) as read by
`io._EventInputFileReader`'s COLUMN_CONTEXT / COLUMN_LABEL / COLUMN_TIME. -/
structure EventRow where
  context : String
  label : EventLabel
  time : ℚ
  deriving DecidableEq, Repr

/-- A cycle's event table (`pd.DataFrame` with `attrs["context"]` and
`attrs["cycle_id"]`). -/
structure EventTable where
  rows : List EventRow
  context : String
  cycle_id : Nat
  deriving DecidableEq, Repr

/-- The distinct failure modes of the feature-calculation core.  Every
constructor corresponds to one raise site (or raising library call) of the
source, so a caller can tell the failure kinds apart:
* `noEvents` — `ValueError("Trial does not have events.")`;
* `missingEvents` — `ValueError("Missing events in segment ...")`;
* `eventSequence` — `ValueError("Error events sequence ...")`;
* `indexError` — an out-of-bounds positional access such as `.values[1]`;
* `attributeError` — attribute access on an absent event table;
* `emptyQuantile` — `np.quantile` applied to an empty array;
* `concatEmpty` — `xr.concat` applied to an empty list of results. -/
inductive GaitError where
  | noEvents
  | missingEvents
  | eventSequence
  | indexError
  | attributeError
  | emptyQuantile
  | concatEmpty
  deriving DecidableEq, Repr

/-- `trial_events[... COLUMN_CONTEXT == curren_context]` (features.py:113). -/
def ipsiRows (tbl : EventTable) : List EventRow :=
  tbl.rows.filter (fun r => r.context == tbl.context)

/-- `trial_events[... COLUMN_CONTEXT != curren_context]` (features.py:116). -/
def contraRows (tbl : EventTable) : List EventRow :=
  tbl.rows.filter (fun r => !(r.context == tbl.context))

/-- `ipsi[... COLUMN_LABEL == FOOT_STRIKE]` (features.py:130). -/
def ipsiFsRows (tbl : EventTable) : List EventRow :=
  (ipsiRows tbl).filter (fun r => r.label == EventLabel.footStrike)

/-- `ipsi[... COLUMN_LABEL == FOOT_OFF]` (features.py:133). -/
def ipsiFoRows (tbl : EventTable) : List EventRow :=
  (ipsiRows tbl).filter (fun r => r.label == EventLabel.footOff)

/-- `contra[... COLUMN_LABEL == FOOT_STRIKE]` (features.py:124). -/
def contraFsRows (tbl : EventTable) : List EventRow :=
  (contraRows tbl).filter (fun r => r.label == EventLabel.footStrike)

/-- `contra[... COLUMN_LABEL == FOOT_OFF]` (features.py:127). -/
def contraFoRows (tbl : EventTable) : List EventRow :=
  (contraRows tbl).filter (fun r => r.label == EventLabel.footOff)

/-- `_CycleFeaturesCalculation.get_event_times` (features.py:88-147).
Validates the event table and extracts the 5-tuple
`(ipsi_fs_start, contra_fo, contra_fs, ipsi_fo, ipsi_fs_end)`.
The positional accesses `.values[0]` / `.values[1]` of lines 135-139 are
modelled by `List.get?`; any of them being out of bounds raises a numpy
`IndexError`, modelled by `GaitError.indexError` (the accesses all fail
with the same error kind, so they are folded into a single match). -/
def get_event_times (trial_events : Option EventTable) :
    Except GaitError (ℚ × ℚ × ℚ × ℚ × ℚ) :=
  match trial_events with
  | none => .error .noEvents
  | some tbl =>
    if tbl.rows.length < 3 then .error .missingEvents
    else if (ipsiRows tbl).length ≠ 3 then .error .eventSequence
    else if (contraRows tbl).length ≠ 2 then .error .eventSequence
    else
      match (ipsiFsRows tbl).get? 0, (ipsiFsRows tbl).get? 1,
            (ipsiFoRows tbl).get? 0, (contraFsRows tbl).get? 0,
            (contraFoRows tbl).get? 0 with
      | some fsStart, some fsEnd, some fo, some cfs, some cfo =>
          .ok (fsStart.time, cfo.time, cfs.time, fo.time, fsEnd.time)
      | _, _, _, _, _ => .error .indexError

/-- The claimed ordering of the extracted 5-tuple: non-decreasing. -/
def timesNondecreasing (t : ℚ × ℚ × ℚ × ℚ × ℚ) : Prop :=
  t.1 ≤ t.2.1 ∧ t.2.1 ≤ t.2.2.1 ∧ t.2.2.1 ≤ t.2.2.2.1 ∧ t.2.2.2.1 ≤ t.2.2.2.2

/-- The claimed strict bracketing: both contra events strictly between the
ipsi foot-strike bracket. -/
def contraStrictlyBetween (t : ℚ × ℚ × ℚ × ℚ × ℚ) : Prop :=
  t.1 < t.2.1 ∧ t.1 < t.2.2.1 ∧ t.2.1 < t.2.2.2.2 ∧ t.2.2.1 < t.2.2.2.2

/-- The error family reported when events are missing altogether
(messages "Trial does not have events." and "Missing events in segment"). -/
def isMissingEventsFamily : GaitError → Bool
  | .noEvents => true
  | .missingEvents => true
  | _ => false

/-- The error family reported for a wrong ipsi/contra cardinality
(message "Error events sequence ..."). -/
def isEventSequenceFamily : GaitError → Bool
  | .eventSequence => true
  | _ => false

/-- A labelled 1-D xarray DataArray over a "feature" axis. -/
structure DataArray1 where
  labels : List String
  data : List ℚ
  deriving DecidableEq, Repr

/-- A labelled 2-D xarray DataArray over (feature, channel) axes; `data`
holds one row per feature, one column per channel. -/
structure DataArray2 where
  featureLabels : List String
  channelLabels : List String
  data : List (List ℚ)
  deriving DecidableEq, Repr

/-- The per-context cycle loop of `_CycleFeaturesCalculation.calculate`
(features.py:62-65): run the per-cycle algorithm on each cycle in
iteration order, propagating any raised error. -/
def calcCycles {α : Type} (f : α → Except GaitError DataArray1) :
    List (Nat × α) → Except GaitError (List (Nat × DataArray1))
  | [] => .ok []
  | (cid, cyc) :: rest => do
      let feature ← f cyc
      let others ← calcCycles f rest
      .ok ((cid, feature) :: others)

/-- The context loop of `_CycleFeaturesCalculation.calculate`
(features.py:59-71): for each context, compute the per-cycle results and
concatenate them; `xr.concat` of an empty list raises (`concatEmpty`). -/
def calcContexts {α : Type} (f : α → Except GaitError DataArray1) :
    List (String × List (Nat × α)) →
      Except GaitError (List (String × List (Nat × DataArray1)))
  | [] => .ok []
  | (ctx, cycles) :: rest => do
      let contextResults ← calcCycles f cycles
      if contextResults.isEmpty then .error .concatEmpty
      else do
        let others ← calcContexts f rest
        .ok ((ctx, contextResults) :: others)

/-- `_CycleFeaturesCalculation.calculate` (features.py:44-74): iterate the
trial's `{context → {cycle_id → cycle}}` mapping (in insertion order),
then concatenate the per-context results; the final `xr.concat` raises on
an empty result list. -/
def framework_calculate {α : Type} (f : α → Except GaitError DataArray1)
    (trial : List (String × List (Nat × α))) :
    Except GaitError (List (String × List (Nat × DataArray1))) := do
  let results ← calcContexts f trial
  if results.isEmpty then .error .concatEmpty else .ok results

/-- The finite (non-missing) samples of one channel, in order: the
samples numpy's `skipna=True` reductions operate on. -/
def validSamples (xs : List (Option ℚ)) : List ℚ := xs.filterMap id

/-- Minimum of a channel's samples (`markers.min(dim="time")`); the value
on an empty list is irrelevant junk (numpy would emit NaN there). -/
def listMin : List ℚ → ℚ
  | [] => 0
  | x :: xs => xs.foldl min x

/-- Maximum of a channel's samples (`markers.max(dim="time")`). -/
def listMax : List ℚ → ℚ
  | [] => 0
  | x :: xs => xs.foldl max x

/-- Mean of a channel's samples (`markers.mean(dim="time")`). -/
def listMean (l : List ℚ) : ℚ := l.sum / (l.length : ℚ)

/-- Ordered insertion into a sorted list, for the median's sort. -/
def insertOrd (x : ℚ) : List ℚ → List ℚ
  | [] => [x]
  | y :: ys => if x ≤ y then x :: y :: ys else y :: insertOrd x ys

/-- Insertion sort of a list of rationals. -/
def sortQ (l : List ℚ) : List ℚ := l.foldr insertOrd []

/-- Median of a channel's samples (`markers.median(dim="time")`, numpy
semantics: middle element for odd length, mean of the two middle elements
for even length). -/
def listMedian (l : List ℚ) : ℚ :=
  let s := sortQ l
  let n := s.length
  if n % 2 = 1 then s.getD (n / 2) 0
  else (s.getD (n / 2 - 1) 0 + s.getD (n / 2) 0) / 2

/-- The fixed feature-axis labels of `TimeSeriesFeatures._calculate_features`
(features.py:325). -/
def tsFeatureNames : List String :=
  ["min", "max", "mean", "median", "std", "amplitude"]

/-- `TimeSeriesFeatures._calculate_features` (features.py:296-329): per
channel, over the full time axis, skipping missing samples, compute min,
max, mean, median, std and amplitude (max − min), concatenated along a new
"feature" axis.  The population standard deviation needs a square root,
which leaves ℚ, so it is delegated to the numeric primitive `std_fn`; no
claim depends on its value. -/
def calculate_features (std_fn : List ℚ → ℚ) (channels : List String)
    (data : List (List (Option ℚ))) : DataArray2 :=
  { featureLabels := tsFeatureNames
    channelLabels := channels
    data :=
      [ data.map (fun ch => listMin (validSamples ch)),
        data.map (fun ch => listMax (validSamples ch)),
        data.map (fun ch => listMean (validSamples ch)),
        data.map (fun ch => listMedian (validSamples ch)),
        data.map (fun ch => std_fn (validSamples ch)),
        List.zipWith (fun mx mn => mx - mn)
          (data.map (fun ch => listMax (validSamples ch)))
          (data.map (fun ch => listMin (validSamples ch))) ] }

/-- `_CycleFeaturesCalculation._flatten_features` (features.py:178-206):
row-major (`order="C"`) reshape of the (feature × channel) data into one
dimension, relabelled `"{channel}_{feature}"` with features outer and
channels inner. -/
def flatten_features (features : DataArray2) : DataArray1 :=
  { labels := features.featureLabels.flatMap
      (fun f => features.channelLabels.map (fun c => c ++ "_" ++ f))
    data := features.data.flatten }

/-- The flattened label sequence produced by `TimeSeriesFeatures` for a
given channel list. -/
def tsLabels (channels : List String) : List String :=
  tsFeatureNames.flatMap (fun f => channels.map (fun c => c ++ "_" ++ f))

/-- `TimeSeriesFeatures._calculate` (features.py:276-294) restricted to its
inputs: the channel labels and the channel × time analysis data. -/
def ts_calculate (std_fn : List ℚ → ℚ) (channels : List String)
    (data : List (List (Option ℚ))) : DataArray1 :=
  flatten_features (calculate_features std_fn channels data)

/-- Round-half-to-even on rationals, the rounding of Python's `round` and
numpy's `np.round` at integer granularity. -/
def roundHalfEven (x : ℚ) : ℤ :=
  let f := ⌊x⌋
  let d := x - (f : ℚ)
  if d < 1 / 2 then f
  else if 1 / 2 < d then f + 1
  else if f % 2 = 0 then f else f + 1

/-- `round(x, 4)`: round to 4 decimal places, half to even. -/
def round4 (x : ℚ) : ℚ := (roundHalfEven (x * 10000) : ℚ) / 10000

/-- A single-cycle trial as consumed by `PhaseTimeSeriesFeatures` and
`TimeSeriesFeatures`: the "analysis" data category (the only category the
calculators read) as channel labels, the shared time coordinates and one
sample row per channel, plus the optional event table and the `context`
attribute of the analysis data. -/
structure PTrial where
  channels : List String
  times : List ℚ
  data : List (List (Option ℚ))
  events : Option EventTable
  context : String

/-- `PhaseTimeSeriesFeatures._create_phase_trial` (features.py:401-412)
composed with `data.sel(time=slice(a, b))`: keep exactly the samples whose
time coordinate lies in the closed interval `[a, b]` (xarray slice
selection on an increasing time index is inclusive at both ends).  The
fresh phase trial has no event table. -/
def sliceTrial (tr : PTrial) (a b : ℚ) : PTrial :=
  { channels := tr.channels
    times := tr.times.filter (fun t => decide (a ≤ t) && decide (t ≤ b))
    data := tr.data.map (fun ch =>
      (ch.zip tr.times).filterMap (fun vt =>
        if a ≤ vt.2 ∧ vt.2 ≤ b then some vt.1 else none))
    events := none
    context := tr.context }

/-- `xr.DataArray.assign_coords(feature=...)`: returns a relabelled copy,
leaving the receiver unchanged (xarray never mutates in place here). -/
def assignFeatureCoords (a : DataArray1) (ls : List String) : DataArray1 :=
  { a with labels := ls }

/-- `xr.concat([a, b], dim="feature")` for two 1-D feature arrays. -/
def concatFeatures (a b : DataArray1) : DataArray1 :=
  { labels := a.labels ++ b.labels, data := a.data ++ b.data }

/-- `PhaseTimeSeriesFeatures._calculate` (features.py:350-399).  Splits the
cycle at the (rounded) ipsi foot-off time into stance and swing sub-trials
and runs the `TimeSeriesFeatures` computation on each.  The source calls
`assign_coords` on both results but discards the returned copies (lines
391-393 and 395-397), exactly as mirrored by the two unused `let`
bindings; the concatenated result therefore keeps the original labels. -/
def phase_calculate (std_fn : List ℚ → ℚ) (tr : PTrial) :
    Except GaitError DataArray1 :=
  match tr.events with
  | none => .error .attributeError
  | some tbl =>
    let event_ipsi := tbl.rows.filter (fun r => r.context == tr.context)
    let event_ipsi_fo := event_ipsi.filter (fun r => r.label == EventLabel.footOff)
    match event_ipsi_fo.get? 0 with
    | none => .error .indexError
    | some r =>
      match tr.times.get? 0, tr.times.getLast? with
      | some start_time, some end_time =>
        let fo_time := round4 r.time
        let stand_trial := sliceTrial tr start_time fo_time
        let swing_trial := sliceTrial tr fo_time end_time
        let stand_features := ts_calculate std_fn stand_trial.channels stand_trial.data
        let _ := assignFeatureCoords stand_features
          (stand_features.labels.map (fun f => f ++ "_swing"))
        let swing_features := ts_calculate std_fn swing_trial.channels swing_trial.data
        let _ := assignFeatureCoords swing_features
          (swing_features.labels.map (fun f => f ++ "_swing"))
        .ok (concatFeatures stand_features swing_features)
      | _, _ => .error .indexError

/-- `TemporalFeatures._calculate_supports` (features.py:465-485). -/
def calculate_supports (contra_fo_time contra_fs_time ipsi_fo_time end_time : ℚ) :
    List (String × ℚ) :=
  [("double_support", (contra_fo_time + (ipsi_fo_time - contra_fs_time)) / end_time),
   ("single_support", (contra_fs_time - contra_fo_time) / end_time)]

/-- `_CycleFeaturesCalculation._create_result_from_dict` (features.py:149-176):
labels are the dict keys in insertion order, data the matching values. -/
def create_result_from_dict (d : List (String × ℚ)) : DataArray1 :=
  { labels := d.map (fun p => p.1), data := d.map (fun p => p.2) }

/-- `TemporalFeatures._calculate` (features.py:429-463): check the event
table exists, extract the 5 event times and build the temporal feature
dictionary in the source's insertion order. -/
def temporal_calculate (trial_events : Option EventTable) :
    Except GaitError DataArray1 :=
  match trial_events with
  | none => .error .noEvents
  | some _ => do
    let ts ← get_event_times trial_events
    let t1 := ts.2.1
    let t2 := ts.2.2.1
    let t3 := ts.2.2.2.1
    let t4 := ts.2.2.2.2
    let d := calculate_supports t1 t2 t3 t4 ++
      [("foot_off", t3 / t4),
       ("opposite_foot_off", t1 / t4),
       ("opposite_foot_contact", t2 / t4),
       ("stride_time", t4),
       ("step_time", t4 - t2),
       ("cadence", 60 / (t4 / 2))]
    .ok (create_result_from_dict d)

/-- A 3-D marker sample (x, y, z) with exact rational coordinates. -/
abbrev Point := ℚ × ℚ × ℚ

/-- A marker trajectory: (time, position) samples in time order, as
returned by the marker accessor `mocap.get_marker_data`. -/
abbrev MarkerSeries := List (ℚ × Point)

/-- A point cast into real coordinates for the geometric primitives. -/
def toR (p : Point) : ℝ × ℝ × ℝ := ((p.1 : ℝ), (p.2.1 : ℝ), (p.2.2 : ℝ))

/-- Euclidean dot product on real 3-vectors. -/
def dotR (u v : ℝ × ℝ × ℝ) : ℝ := u.1 * v.1 + u.2.1 * v.2.1 + u.2.2 * v.2.2

/-- Euclidean norm of a real 3-vector. -/
noncomputable def normR (v : ℝ × ℝ × ℝ) : ℝ := Real.sqrt (dotR v v)

/-- Modelled from the spec: the missing `linalg.normalize_vector` numeric
primitive — the vector divided by its Euclidean norm. -/
noncomputable def normalize_vector (v : ℝ × ℝ × ℝ) : ℝ × ℝ × ℝ :=
  (v.1 / normR v, v.2.1 / normR v, v.2.2 / normR v)

/-- Modelled from the spec: the missing `linalg.project_point_on_vector`
numeric primitive — the orthogonal projection of the point onto the line
spanned by the vector. -/
noncomputable def project_point_on_vector (p v : ℝ × ℝ × ℝ) : ℝ × ℝ × ℝ :=
  ((dotR p v / dotR v v) * v.1, (dotR p v / dotR v v) * v.2.1,
   (dotR p v / dotR v v) * v.2.2)

/-- Modelled from the spec: the missing `linalg.calculate_distance` numeric
primitive — the Euclidean distance between two points. -/
noncomputable def calculate_distance (p q : ℝ × ℝ × ℝ) : ℝ :=
  normR (p.1 - q.1, p.2.1 - q.2.1, p.2.2 - q.2.2)

/-- `marker.sel(time=t, method="nearest")`: the sample whose time
coordinate is closest to `t` (the earlier sample on an exact tie); `none`
models the selection error pandas raises on an empty index. -/
def nearestSel (samples : MarkerSeries) (t : ℚ) : Option Point :=
  match samples with
  | [] => none
  | s :: rest =>
      some ((rest.foldl (fun best cur =>
        if |cur.1 - t| < |best.1 - t| then cur else best) s).2)

/-- `SpatialFeatures._calculate_step_length` (features.py:551-581).  The
marker accessor and the progression-vector accessor live outside the
provided source, so the ipsi/contra marker trajectories and the trial's
progression vector (sacrum to anterior hip, per the source doc comment)
are taken as inputs.  Both markers are sampled at the final event time
with nearest-neighbour selection, projected onto the normalized
progression vector, and the step length is the Euclidean distance between
the projections. -/
noncomputable def calculate_step_length (trial_events : Option EventTable)
    (ipsiMarker contraMarker : MarkerSeries) (progression : Point) :
    Except GaitError ℝ := do
  let ts ← get_event_times trial_events
  let t4 := ts.2.2.2.2
  match nearestSel ipsiMarker t4, nearestSel contraMarker t4 with
  | some ipsiHeel, some contraHeel =>
      let progress_axis := normalize_vector (toR progression)
      let projected_ipsi := project_point_on_vector (toR ipsiHeel) progress_axis
      let projected_contra := project_point_on_vector (toR contraHeel) progress_axis
      .ok (calculate_distance projected_ipsi projected_contra)
  | _, _ => .error .indexError

/-- `marker.sel(time=slice(a, b))`: the samples with time in `[a, b]`. -/
def sliceSeries (s : MarkerSeries) (a b : ℚ) : MarkerSeries :=
  s.filter (fun x => decide (a ≤ x.1) && decide (x.1 ≤ b))

/-- `marker.sel(axis='z')`: the vertical coordinates of a trajectory. -/
def zOf (s : MarkerSeries) : List ℚ := s.map (fun x => x.2.2.2)

/-- Modelled from the spec: the missing `math.find_local_minimas` numeric
primitive — local-minimum detection, read as the interior sample positions
that are strictly below both neighbours. -/
def findLocalMinimas (xs : List ℚ) : List Nat :=
  (List.range xs.length).filter (fun i =>
    decide (0 < i) && decide (i + 1 < xs.length) &&
    decide (xs.getD i 0 < xs.getD (i - 1) 0) &&
    decide (xs.getD i 0 < xs.getD (i + 1) 0))

/-- Python's `min(l, key=k)`: the first element of `l` attaining the least
key, `none` on an empty list (where Python would raise). -/
def minByKey (k : Nat → ℚ) : List Nat → Option Nat
  | [] => none
  | x :: xs => some (xs.foldl (fun best i => if k i < k best then i else best) x)

/-- The qualifying local minima of `SpatialFeatures._find_mtc_index`
(features.py:684-690): local minima of the toe's vertical trajectory whose
averaged toe velocity reaches the threshold and whose vertical value does
not exceed the heel's at the same sample, filtered in the source's order. -/
def mtcQualifying (toe_z heel_z toes_vel : List ℚ) (thr : ℚ) : List Nat :=
  ((findLocalMinimas toe_z).filter
      (fun i => decide (thr ≤ toes_vel.getD i 0))).filter
    (fun i => decide (toe_z.getD i 0 ≤ heel_z.getD i 0))

/-- `SpatialFeatures._find_mtc_index` (features.py:668-696): `none` models
the `np.NaN` returned when no qualifying minimum exists; otherwise the
index minimizing the toe's vertical value. -/
def find_mtc_index (toe_z heel_z toes_vel : List ℚ) (thr : ℚ) : Option Nat :=
  minByKey (fun i => toe_z.getD i 0) (mtcQualifying toe_z heel_z toes_vel thr)

/-- `np.quantile(l, .5)`: the median under numpy's linear interpolation. -/
def quantile05 (l : List ℚ) : ℚ := listMedian l

/-- The averaged toe velocity of features.py:650-652 for a given speed-norm
primitive: `(speed(meta2) + speed(meta5)) / 2`, samplewise. -/
def toesVelOf (speed_norm : MarkerSeries → List ℚ) (m2w m5w : MarkerSeries) :
    List ℚ :=
  List.zipWith (fun a b => (a + b) / 2) (speed_norm m2w) (speed_norm m5w)

/-- `SpatialFeatures._calculate_minimal_toe_clearance` (features.py:618-666).
The marker accessor and `linalg.calculate_speed_norm` live outside the
provided source, so the three marker trajectories are taken as inputs and
the speed-norm primitive is a function parameter.  The three trajectories
are restricted to the swing window `[ipsi_fo, cycle_end]`, the qualifying
minimal-toe-clearance index of each forefoot marker is computed, and the
result is `none` (the `np.NaN` sentinel) when neither marker qualifies,
the single qualifying marker's value when exactly one does, and the
smaller of the two vertical values otherwise. -/
def calculate_minimal_toe_clearance (speed_norm : MarkerSeries → List ℚ)
    (trial_events : Option EventTable)
    (ipsi_meta_2 ipsi_meta_5 ipsi_heel : MarkerSeries) :
    Except GaitError (Option ℚ) := do
  let ts ← get_event_times trial_events
  let t3 := ts.2.2.2.1
  let t4 := ts.2.2.2.2
  let heelw := sliceSeries ipsi_heel t3 t4
  let m2w := sliceSeries ipsi_meta_2 t3 t4
  let m5w := sliceSeries ipsi_meta_5 t3 t4
  let toes_vel := toesVelOf speed_norm m2w m5w
  if toes_vel = [] then .error .emptyQuantile
  else
    let thr := quantile05 toes_vel
    let mtc2_i := find_mtc_index (zOf m2w) (zOf heelw) toes_vel thr
    let mtc5_i := find_mtc_index (zOf m5w) (zOf heelw) toes_vel thr
    match mtc2_i, mtc5_i with
    | none, none => .ok none
    | none, some i => .ok (some ((zOf m5w).getD i 0))
    | some i, none => .ok (some ((zOf m2w).getD i 0))
    | some i, some j =>
        .ok (some (min ((zOf m2w).getD i 0) ((zOf m5w).getD j 0)))

/-- The two event labels partition any row list: foot-strike rows plus
foot-off rows account for every row. -/
lemma length_filter_fs_add_fo (l : List EventRow) :
    (l.filter (fun r => r.label == EventLabel.footStrike)).length +
      (l.filter (fun r => r.label == EventLabel.footOff)).length = l.length := by
  induction l with
  | nil => rfl
  | cons r t ih =>
      cases h : r.label <;> simp [List.filter_cons, h] <;> omega

/-- A table whose ipsi partition has the valid label composition has
exactly 3 ipsi rows. -/
lemma ipsi_length_of_composition (tbl : EventTable) (a b e : EventRow)
    (hifs : ipsiFsRows tbl = [a, b]) (hifo : ipsiFoRows tbl = [e]) :
    (ipsiRows tbl).length = 3 := by
  have h := length_filter_fs_add_fo (ipsiRows tbl)
  unfold ipsiFsRows at hifs
  unfold ipsiFoRows at hifo
  rw [hifs, hifo] at h
  simpa using h.symm

/-- A table whose contra partition has the valid label composition has
exactly 2 contra rows. -/
lemma contra_length_of_composition (tbl : EventTable) (d c : EventRow)
    (hcfs : contraFsRows tbl = [d]) (hcfo : contraFoRows tbl = [c]) :
    (contraRows tbl).length = 2 := by
  have h := length_filter_fs_add_fo (contraRows tbl)
  unfold contraFsRows at hcfs
  unfold contraFoRows at hcfo
  rw [hcfs, hcfo] at h
  simpa using h.symm

/-- C1: For every cycle whose event table passes the cardinality validation
(exactly 3 ipsi-context rows and 2 contra-context rows), `get_event_times`
returns exactly 5 timestamps (ipsi_fs_start, contra_fo, contra_fs,
ipsi_fo, ipsi_fs_end) in non-decreasing order with the contra events
falling strictly between the ipsi bracket, and within ipsi the two
foot-strikes are ordered by time: the earlier one is the cycle start and
the later one the cycle end.  REFUTED at a concrete cardinality-valid
table whose rows are not listed in time order: the extractor performs no
sorting or ordering check, so the returned tuple (10, 200, 100, 5, 0) is
not non-decreasing and the later foot-strike becomes the cycle start. -/
theorem c1_counterexample :
    (ipsiRows ⟨[⟨"Left", .footStrike, 10⟩, ⟨"Left", .footOff, 5⟩,
        ⟨"Left", .footStrike, 0⟩, ⟨"Right", .footStrike, 100⟩,
        ⟨"Right", .footOff, 200⟩], "Left", 1⟩).length = 3 ∧
    (contraRows ⟨[⟨"Left", .footStrike, 10⟩, ⟨"Left", .footOff, 5⟩,
        ⟨"Left", .footStrike, 0⟩, ⟨"Right", .footStrike, 100⟩,
        ⟨"Right", .footOff, 200⟩], "Left", 1⟩).length = 2 ∧
    get_event_times (some ⟨[⟨"Left", .footStrike, 10⟩, ⟨"Left", .footOff, 5⟩,
        ⟨"Left", .footStrike, 0⟩, ⟨"Right", .footStrike, 100⟩,
        ⟨"Right", .footOff, 200⟩], "Left", 1⟩) = .ok (10, 200, 100, 5, 0) ∧
    ¬ timesNondecreasing (10, 200, 100, 5, 0) ∧
    ¬ contraStrictlyBetween (10, 200, 100, 5, 0) :=
  ⟨rfl, rfl, rfl, by norm_num [timesNondecreasing],
    by norm_num [contraStrictlyBetween]⟩

/-- C1 (amended): On a cardinality-valid table with the valid label
composition, `get_event_times` succeeds and returns the event times taken
in table row order — first-listed ipsi foot-strike, first contra foot-off,
first contra foot-strike, ipsi foot-off, second-listed ipsi foot-strike —
with no sorting or ordering check; the tuple is non-decreasing (resp. has
the contra events strictly inside the ipsi bracket) exactly when the
underlying row times already satisfy that ordering. -/
theorem c1_event_times_row_order (tbl : EventTable) (a b e d c : EventRow)
    (hifs : ipsiFsRows tbl = [a, b]) (hifo : ipsiFoRows tbl = [e])
    (hcfs : contraFsRows tbl = [d]) (hcfo : contraFoRows tbl = [c]) :
    get_event_times (some tbl) = .ok (a.time, c.time, d.time, e.time, b.time) ∧
    (timesNondecreasing (a.time, c.time, d.time, e.time, b.time) ↔
      (a.time ≤ c.time ∧ c.time ≤ d.time ∧ d.time ≤ e.time ∧ e.time ≤ b.time)) ∧
    (contraStrictlyBetween (a.time, c.time, d.time, e.time, b.time) ↔
      (a.time < c.time ∧ a.time < d.time ∧ c.time < b.time ∧ d.time < b.time)) := by
  have hip : (ipsiRows tbl).length = 3 := ipsi_length_of_composition tbl a b e hifs hifo
  have hcon : (contraRows tbl).length = 2 := contra_length_of_composition tbl d c hcfs hcfo
  have hlen : ¬ tbl.rows.length < 3 := by
    have hle : (ipsiRows tbl).length ≤ tbl.rows.length := List.length_filter_le _ _
    omega
  refine ⟨?_, Iff.rfl, Iff.rfl⟩
  simp only [get_event_times]
  rw [if_neg hlen, if_neg (by omega), if_neg (by omega), hifs, hifo, hcfs, hcfo]
  rfl

/-- Witness for the amended C1 at a well-ordered concrete table. -/
theorem c1_event_times_row_order_witness :
    get_event_times (some ⟨[⟨"Left", .footStrike, 0⟩, ⟨"Right", .footOff, 1/4⟩,
        ⟨"Right", .footStrike, 1/2⟩, ⟨"Left", .footOff, 3/4⟩,
        ⟨"Left", .footStrike, 1⟩], "Left", 1⟩) = .ok (0, 1/4, 1/2, 3/4, 1) ∧
    timesNondecreasing (0, 1/4, 1/2, 3/4, 1) ∧
    contraStrictlyBetween (0, 1/4, 1/2, 3/4, 1) := by
  have h := c1_event_times_row_order
    ⟨[⟨"Left", .footStrike, 0⟩, ⟨"Right", .footOff, 1/4⟩,
      ⟨"Right", .footStrike, 1/2⟩, ⟨"Left", .footOff, 3/4⟩,
      ⟨"Left", .footStrike, 1⟩], "Left", 1⟩
    ⟨"Left", .footStrike, 0⟩ ⟨"Left", .footStrike, 1⟩ ⟨"Left", .footOff, 3/4⟩
    ⟨"Right", .footStrike, 1/2⟩ ⟨"Right", .footOff, 1/4⟩ rfl rfl rfl rfl
  exact ⟨h.1, by norm_num [timesNondecreasing], by norm_num [contraStrictlyBetween]⟩

/-- C9: There exists an event table passing the cardinality validation
(3 ipsi rows, 2 contra rows) whose label composition is wrong — here three
ipsi foot-strikes and no ipsi foot-off — for which `get_event_times` fails
with the out-of-bounds indexing error rather than the event-sequence
validation error: per-label cardinality is never checked before the
positional accesses. -/
theorem c9_label_composition_unchecked :
    (ipsiRows ⟨[⟨"Left", .footStrike, 0⟩, ⟨"Left", .footStrike, 1⟩,
        ⟨"Left", .footStrike, 2⟩, ⟨"Right", .footStrike, 1/2⟩,
        ⟨"Right", .footOff, 3/2⟩], "Left", 2⟩).length = 3 ∧
    (contraRows ⟨[⟨"Left", .footStrike, 0⟩, ⟨"Left", .footStrike, 1⟩,
        ⟨"Left", .footStrike, 2⟩, ⟨"Right", .footStrike, 1/2⟩,
        ⟨"Right", .footOff, 3/2⟩], "Left", 2⟩).length = 2 ∧
    get_event_times (some ⟨[⟨"Left", .footStrike, 0⟩, ⟨"Left", .footStrike, 1⟩,
        ⟨"Left", .footStrike, 2⟩, ⟨"Right", .footStrike, 1/2⟩,
        ⟨"Right", .footOff, 3/2⟩], "Left", 2⟩) = .error .indexError ∧
    isEventSequenceFamily .indexError = false ∧
    isMissingEventsFamily .indexError = false :=
  ⟨rfl, rfl, rfl, rfl, rfl⟩

/-- Once all three validations pass, the extraction tail either succeeds
or fails with the indexing error — never with a validation error. -/
lemma get_event_times_tail (tbl : EventTable)
    (h3 : ¬ tbl.rows.length < 3) (hi : (ipsiRows tbl).length = 3)
    (hc : (contraRows tbl).length = 2) :
    get_event_times (some tbl) = .error .indexError ∨
      ∃ t, get_event_times (some tbl) = .ok t := by
  simp only [get_event_times]
  rw [if_neg h3, if_neg (by omega), if_neg (by omega)]
  rcases h0 : (ipsiFsRows tbl).get? 0 with _ | r0 <;>
    rcases h1 : (ipsiFsRows tbl).get? 1 with _ | r1 <;>
    rcases h2 : (ipsiFoRows tbl).get? 0 with _ | r2 <;>
    rcases h4 : (contraFsRows tbl).get? 0 with _ | r4 <;>
    rcases h5 : (contraFoRows tbl).get? 0 with _ | r5 <;>
    simp

/-- Full case analysis of `get_event_times` on a present table. -/
lemma get_event_times_some_cases (tbl : EventTable) :
    (tbl.rows.length < 3 ∧ get_event_times (some tbl) = .error .missingEvents) ∨
    (¬ tbl.rows.length < 3 ∧
      ((ipsiRows tbl).length ≠ 3 ∨ (contraRows tbl).length ≠ 2) ∧
      get_event_times (some tbl) = .error .eventSequence) ∨
    (¬ tbl.rows.length < 3 ∧ (ipsiRows tbl).length = 3 ∧
      (contraRows tbl).length = 2 ∧
      (get_event_times (some tbl) = .error .indexError ∨
        ∃ t, get_event_times (some tbl) = .ok t)) := by
  by_cases h3 : tbl.rows.length < 3
  · exact Or.inl ⟨h3, by simp only [get_event_times]; rw [if_pos h3]⟩
  · by_cases hi : (ipsiRows tbl).length = 3
    · by_cases hc : (contraRows tbl).length = 2
      · exact Or.inr (Or.inr ⟨h3, hi, hc, get_event_times_tail tbl h3 hi hc⟩)
      · refine Or.inr (Or.inl ⟨h3, Or.inr hc, ?_⟩)
        simp only [get_event_times]
        rw [if_neg h3]
        by_cases hi' : (ipsiRows tbl).length ≠ 3
        · rw [if_pos hi']
        · rw [if_neg hi', if_pos hc]
    · refine Or.inr (Or.inl ⟨h3, Or.inl hi, ?_⟩)
      simp only [get_event_times]
      rw [if_neg h3, if_pos hi]

/-- C3: `get_event_times` fails with the missing-events error family
exactly when the table is absent or has fewer than 3 rows, fails with the
event-sequence error exactly when the table is present with at least 3
rows but the ipsi partition is not exactly 3 rows or the contra partition
is not exactly 2 rows, and the two failure kinds are distinguishable by
the caller. -/
theorem c3_error_taxonomy (ev : Option EventTable) :
    ((∃ er, get_event_times ev = .error er ∧ isMissingEventsFamily er = true) ↔
      (ev = none ∨ ∃ tbl, ev = some tbl ∧ tbl.rows.length < 3)) ∧
    ((∃ er, get_event_times ev = .error er ∧ isEventSequenceFamily er = true) ↔
      (∃ tbl, ev = some tbl ∧ 3 ≤ tbl.rows.length ∧
        ((ipsiRows tbl).length ≠ 3 ∨ (contraRows tbl).length ≠ 2))) ∧
    (∀ er er', isMissingEventsFamily er = true → isEventSequenceFamily er' = true →
      er ≠ er') := by
  refine ⟨?_, ?_, ?_⟩
  · cases ev with
    | none =>
        constructor
        · intro _; exact Or.inl rfl
        · intro _; exact ⟨.noEvents, rfl, rfl⟩
    | some tbl =>
        constructor
        · intro ⟨er, her, hfam⟩
          rcases get_event_times_some_cases tbl with ⟨h3, hres⟩ | ⟨_, _, hres⟩ |
              ⟨_, _, _, hres | ⟨t, hres⟩⟩
          · exact Or.inr ⟨tbl, rfl, h3⟩
          · rw [her] at hres
            cases hres
            simp [isMissingEventsFamily] at hfam
          · rw [her] at hres
            cases hres
            simp [isMissingEventsFamily] at hfam
          · rw [her] at hres
            cases hres
        · rintro (h | ⟨tbl', heq, h3⟩)
          · cases h
          · cases heq
            refine ⟨.missingEvents, ?_, rfl⟩
            simp only [get_event_times]
            rw [if_pos h3]
  · cases ev with
    | none =>
        constructor
        · intro ⟨er, her, hfam⟩
          cases her
          simp [isEventSequenceFamily] at hfam
        · rintro ⟨tbl, heq, _⟩
          cases heq
    | some tbl =>
        constructor
        · intro ⟨er, her, hfam⟩
          rcases get_event_times_some_cases tbl with ⟨h3, hres⟩ | ⟨h3, hcard, hres⟩ |
              ⟨_, _, _, hres | ⟨t, hres⟩⟩
          · rw [her] at hres
            cases hres
            simp [isEventSequenceFamily] at hfam
          · exact ⟨tbl, rfl, by omega, hcard⟩
          · rw [her] at hres
            cases hres
            simp [isEventSequenceFamily] at hfam
          · rw [her] at hres
            cases hres
        · rintro ⟨tbl', heq, h3, hcard⟩
          cases heq
          refine ⟨.eventSequence, ?_, rfl⟩
          simp only [get_event_times]
          rw [if_neg (by omega)]
          rcases hcard with hi | hc
          · rw [if_pos hi]
          · by_cases hi' : (ipsiRows tbl).length ≠ 3
            · rw [if_pos hi']
            · rw [if_neg hi', if_pos hc]
  · intro er er' h h'
    cases er <;> cases er' <;>
      simp_all [isMissingEventsFamily, isEventSequenceFamily]

/-- Witness instantiating the C3 taxonomy at a concrete absent table. -/
theorem c3_error_taxonomy_witness :
    (∃ er, get_event_times none = .error er ∧ isMissingEventsFamily er = true) ∧
    ¬ (∃ er, get_event_times none = .error er ∧ isEventSequenceFamily er = true) := by
  have h := c3_error_taxonomy none
  exact ⟨(h.1).mpr (Or.inl rfl),
    fun hx => by
      rcases (h.2.1).mp hx with ⟨tbl, heq, _⟩
      cases heq⟩

/-- `Except.ok x >>= f` reduces to `f x`. -/
lemma exceptBindOk {ε α β : Type} (x : α) (f : α → Except ε β) :
    (Except.ok x >>= f : Except ε β) = f x := rfl

/-- `Except.error e >>= f` propagates the error. -/
lemma exceptBindError {ε α β : Type} (er : ε) (f : α → Except ε β) :
    (Except.error er >>= f : Except ε β) = Except.error er := rfl

/-- C4: For every cycle with a valid 5-tuple of event times (t0..t4),
`TemporalFeatures` produces exactly double_support =
(contra_fo + (ipsi_fo − contra_fs)) / t4, single_support =
(contra_fs − contra_fo) / t4, foot_off = ipsi_fo / t4, opposite_foot_off =
contra_fo / t4, opposite_foot_contact = contra_fs / t4, stride_time = t4,
step_time = t4 − contra_fs and cadence = 60 / (t4 / 2), in that label
order; in particular for t4 = 1.2 the cadence is exactly 100. -/
theorem c4_temporal_formulas (ev : Option EventTable) (t0 t1 t2 t3 t4 : ℚ)
    (h : get_event_times ev = .ok (t0, t1, t2, t3, t4)) :
    temporal_calculate ev = .ok
      ⟨["double_support", "single_support", "foot_off", "opposite_foot_off",
        "opposite_foot_contact", "stride_time", "step_time", "cadence"],
       [(t1 + (t3 - t2)) / t4, (t2 - t1) / t4, t3 / t4, t1 / t4, t2 / t4,
        t4, t4 - t2, 60 / (t4 / 2)]⟩ ∧
    (t4 = 6 / 5 → 60 / (t4 / 2) = 100) := by
  constructor
  · cases ev with
    | none => simp [get_event_times] at h
    | some tbl =>
        simp only [temporal_calculate, h, exceptBindOk, calculate_supports,
          create_result_from_dict]
        rfl
  · intro h4
    rw [h4]
    norm_num

/-- Witness for C4 at a concrete valid cycle with stride time 6/5. -/
theorem c4_temporal_formulas_witness :
    temporal_calculate (some ⟨[⟨"Left", .footStrike, 0⟩, ⟨"Right", .footOff, 1/5⟩,
        ⟨"Right", .footStrike, 2/5⟩, ⟨"Left", .footOff, 4/5⟩,
        ⟨"Left", .footStrike, 6/5⟩], "Left", 0⟩) = .ok
      ⟨["double_support", "single_support", "foot_off", "opposite_foot_off",
        "opposite_foot_contact", "stride_time", "step_time", "cadence"],
       [1/2, 1/6, 2/3, 1/6, 1/3, 6/5, 4/5, 100]⟩ := by
  have h := c4_temporal_formulas (some ⟨[⟨"Left", .footStrike, 0⟩,
      ⟨"Right", .footOff, 1/5⟩, ⟨"Right", .footStrike, 2/5⟩,
      ⟨"Left", .footOff, 4/5⟩, ⟨"Left", .footStrike, 6/5⟩], "Left", 0⟩)
    0 (1/5) (2/5) (4/5) (6/5) rfl
  rw [h.1]
  norm_num

/-- A context whose cycle mapping is empty makes the context loop fail:
the per-context `xr.concat` (or an earlier per-cycle error) aborts. -/
lemma calcContexts_error_of_mem_empty {α : Type}
    (f : α → Except GaitError DataArray1) :
    ∀ (l : List (String × List (Nat × α))),
      (∃ p ∈ l, p.2 = []) → ∃ er, calcContexts f l = .error er := by
  intro l
  induction l with
  | nil =>
      rintro ⟨p, hp, _⟩
      cases hp
  | cons hd tl ih =>
      rintro ⟨p, hp, hpe⟩
      obtain ⟨ctx, cycles⟩ := hd
      rcases List.mem_cons.mp hp with heq | hmem
      · refine ⟨.concatEmpty, ?_⟩
        have hc : cycles = [] := by rw [heq] at hpe; exact hpe
        subst hc
        rfl
      · cases hcy : calcCycles f cycles with
        | error er =>
            refine ⟨er, ?_⟩
            simp only [calcContexts]
            rw [hcy]
            rfl
        | ok rs =>
            by_cases hrs : rs.isEmpty = true
            · refine ⟨.concatEmpty, ?_⟩
              simp only [calcContexts]
              rw [hcy, exceptBindOk, if_pos hrs]
            · obtain ⟨er, her⟩ := ih ⟨p, hmem, hpe⟩
              refine ⟨er, ?_⟩
              simp only [calcContexts]
              rw [hcy, exceptBindOk, if_neg hrs, her]
              rfl

/-- C10: For every calculator built on the per-cycle framework, `calculate`
raises an error — it never returns an empty labelled array — when the
input trial's context mapping is empty or when any context maps to an
empty cycle mapping: the concatenation over zero per-cycle or per-context
results fails. -/
theorem c10_empty_input_errors {α : Type}
    (f : α → Except GaitError DataArray1)
    (trial : List (String × List (Nat × α)))
    (h : trial = [] ∨ ∃ p ∈ trial, p.2 = []) :
    ∃ er, framework_calculate f trial = .error er := by
  rcases h with rfl | hmem
  · exact ⟨.concatEmpty, rfl⟩
  · obtain ⟨er, her⟩ := calcContexts_error_of_mem_empty f trial hmem
    exact ⟨er, by simp [framework_calculate, her, exceptBindError]⟩

/-- Witness for C10: a per-cycle calculator that always succeeds still
errors on a trial whose single context has no cycles, and on a trial with
no contexts at all. -/
theorem c10_empty_input_errors_witness :
    (∃ er, framework_calculate (fun _ : Unit => .ok ⟨["f"], [0]⟩)
      [("Left", ([] : List (Nat × Unit)))] = .error er) ∧
    (∃ er, framework_calculate (fun _ : Unit => .ok ⟨["f"], [0]⟩)
      ([] : List (String × List (Nat × Unit))) = .error er) :=
  ⟨c10_empty_input_errors _ _ (Or.inr ⟨("Left", []), List.mem_singleton.mpr rfl, rfl⟩),
   c10_empty_input_errors _ _ (Or.inl rfl)⟩

/-- Row lookup by feature label in a 2-D feature array. -/
def featureRow (a : DataArray2) (f : String) : List ℚ :=
  match a.featureLabels.indexOf? f with
  | some k => a.data.getD k []
  | none => []

/-- Pointwise description of `List.zipWith` at an index. -/
lemma getElem?_zipWith_eq (f : ℚ → ℚ → ℚ) :
    ∀ (a b : List ℚ) (i : Nat),
      (List.zipWith f a b)[i]? =
        match a[i]?, b[i]? with
        | some x, some y => some (f x y)
        | _, _ => none := by
  intro a
  induction a with
  | nil => intro b i; simp
  | cons x xs ih =>
      intro b i
      cases b with
      | nil => simp
      | cons y ys =>
          cases i with
          | zero => simp
          | succ n => simpa using ih ys n

/-- C8: For every channel of the analysis array with finite samples, the
amplitude feature computed by `TimeSeriesFeatures` equals exactly the max
feature minus the min feature of that channel (all computed over the full
time axis ignoring missing samples). -/
theorem c8_amplitude_is_max_sub_min (std_fn : List ℚ → ℚ)
    (channels : List String) (data : List (List (Option ℚ))) (i : Nat)
    (c : List (Option ℚ)) (hc : data[i]? = some c)
    (_hfin : validSamples c ≠ []) :
    (featureRow (calculate_features std_fn channels data) "amplitude")[i]? =
      some (listMax (validSamples c) - listMin (validSamples c)) ∧
    (featureRow (calculate_features std_fn channels data) "max")[i]? =
      some (listMax (validSamples c)) ∧
    (featureRow (calculate_features std_fn channels data) "min")[i]? =
      some (listMin (validSamples c)) := by
  have hamp : featureRow (calculate_features std_fn channels data) "amplitude" =
      List.zipWith (fun mx mn => mx - mn)
        (data.map (fun ch => listMax (validSamples ch)))
        (data.map (fun ch => listMin (validSamples ch))) := rfl
  have hmax : featureRow (calculate_features std_fn channels data) "max" =
      data.map (fun ch => listMax (validSamples ch)) := rfl
  have hmin : featureRow (calculate_features std_fn channels data) "min" =
      data.map (fun ch => listMin (validSamples ch)) := rfl
  refine ⟨?_, ?_, ?_⟩
  · rw [hamp, getElem?_zipWith_eq]
    simp [hc]
  · rw [hmax]
    simp [hc]
  · rw [hmin]
    simp [hc]

/-- Witness for C8 on a concrete channel with a missing sample. -/
theorem c8_amplitude_is_max_sub_min_witness :
    (featureRow (calculate_features (fun _ => 0) ["a"]
        [[some 1, none, some 4]]) "amplitude")[0]? = some 3 := by
  have h := c8_amplitude_is_max_sub_min (fun _ => 0) ["a"]
    [[some 1, none, some 4]] 0 [some 1, none, some 4] rfl
    (by simp [validSamples])
  have hv : validSamples [some 1, none, some 4] = [1, 4] := rfl
  rw [hv] at h
  exact h.1.trans (by norm_num [listMax, listMin, max_def, min_def])

/-- Splitting at the first underscore is unambiguous when neither prefix
contains an underscore. -/
lemma underscore_split_inj : ∀ (l₁ l₂ m₁ m₂ : List Char), '_' ∉ l₁ → '_' ∉ l₂ →
    l₁ ++ '_' :: m₁ = l₂ ++ '_' :: m₂ → l₁ = l₂ ∧ m₁ = m₂ := by
  intro l₁
  induction l₁ with
  | nil =>
      intro l₂ m₁ m₂ _ h₂ h
      cases l₂ with
      | nil => simpa using h
      | cons d s =>
          simp only [List.nil_append, List.cons_append, List.cons.injEq] at h
          exact absurd (h.1 ▸ List.mem_cons_self d s) h₂
  | cons c t ih =>
      intro l₂ m₁ m₂ h₁ h₂ h
      cases l₂ with
      | nil =>
          simp only [List.nil_append, List.cons_append, List.cons.injEq] at h
          exact absurd (h.1 ▸ List.mem_cons_self c t) h₁
      | cons d s =>
          simp only [List.cons_append, List.cons.injEq] at h
          have hts := ih s m₁ m₂ (fun hm => h₁ (List.mem_cons_of_mem c hm))
            (fun hm => h₂ (List.mem_cons_of_mem d hm)) h.2
          exact ⟨by rw [h.1, hts.1], hts.2⟩

/-- `"{channel}_{feature}"` labels are injective in the (channel, feature)
pair as long as channel names are underscore-free. -/
lemma label_pair_inj (c₁ f₁ c₂ f₂ : String) (h₁ : '_' ∉ c₁.data)
    (h₂ : '_' ∉ c₂.data) (h : c₁ ++ "_" ++ f₁ = c₂ ++ "_" ++ f₂) :
    c₁ = c₂ ∧ f₁ = f₂ := by
  have hd : c₁.data ++ '_' :: f₁.data = c₂.data ++ '_' :: f₂.data := by
    have := congrArg String.data h
    simpa using this
  obtain ⟨hc, hf⟩ := underscore_split_inj c₁.data c₂.data f₁.data f₂.data h₁ h₂ hd
  exact ⟨String.ext hc, String.ext hf⟩

/-- Length of a flatMap whose blocks all have the same length. -/
lemma length_flatMap_const {α β : Type} (g : α → List β) (C : Nat) :
    ∀ (l : List α), (∀ x ∈ l, (g x).length = C) →
      (l.flatMap g).length = l.length * C := by
  intro l
  induction l with
  | nil => intro _; simp
  | cons x t ih =>
      intro hg
      simp only [List.flatMap_cons, List.length_append,
        ih (fun y hy => hg y (List.mem_cons_of_mem x hy)),
        hg x (List.mem_cons_self x t), List.length_cons]
      ring

/-- Element of a flatMap with constant block length, at a block-local
index. -/
lemma getElem?_flatMap_const {α β : Type} (g : α → List β) (C : Nat) :
    ∀ (l : List α) (i j : Nat) (hi : i < l.length), (∀ x ∈ l, (g x).length = C) →
      j < C → (l.flatMap g)[i * C + j]? = (g (l.get ⟨i, hi⟩))[j]? := by
  intro l
  induction l with
  | nil => intro i j hi; exact absurd hi (by simp)
  | cons x t ih =>
      intro i j hi hg hj
      have hx := hg x (List.mem_cons_self x t)
      cases i with
      | zero =>
          simp only [List.flatMap_cons, Nat.zero_mul, Nat.zero_add]
          rw [List.getElem?_append, if_pos (by rw [hx]; exact hj)]
          rfl
      | succ n =>
          have hsm : (n + 1) * C = n * C + C := Nat.succ_mul n C
          simp only [List.flatMap_cons]
          rw [List.getElem?_append_right (by rw [hx, hsm]; omega)]
          have harith : (n + 1) * C + j - (g x).length = n * C + j := by
            rw [hx, hsm]
            omega
          rw [harith]
          exact ih n j (by simpa using hi)
            (fun y hy => hg y (List.mem_cons_of_mem x hy)) hj

/-- The flattened label list is duplicate-free when channel names are
underscore-free and both label lists are duplicate-free. -/
lemma flatten_labels_nodup (fs cs : List String) (hf : fs.Nodup)
    (hc : cs.Nodup) (hund : ∀ c ∈ cs, '_' ∉ c.data) :
    (fs.flatMap (fun f => cs.map (fun c => c ++ "_" ++ f))).Nodup := by
  rw [List.nodup_flatMap]
  constructor
  · intro f _
    refine hc.map_on ?_
    intro c₁ hc₁ c₂ hc₂ heq
    exact (label_pair_inj c₁ f c₂ f (hund c₁ hc₁) (hund c₂ hc₂) heq).1
  · refine hf.imp ?_
    intro f₁ f₂ hne
    intro a ha₁ ha₂
    obtain ⟨c₁, hc₁, rfl⟩ := List.mem_map.mp ha₁
    obtain ⟨c₂, hc₂, heq⟩ := List.mem_map.mp ha₂
    exact hne ((label_pair_inj c₂ f₂ c₁ f₁ (hund c₂ hc₂) (hund c₁ hc₁) heq).2).symm

/-- C7 (amended): For every 2-D labelled array with duplicate-free feature
labels and duplicate-free, underscore-free channel labels, the flatten
operation returns a 1-D array of length F×C whose label sequence is
exactly `{channel}_{feature}` enumerated feature-major with no duplicate
labels, and whose data is the row-major flattening of the input — a
bijection between (feature, channel) pairs and output positions.
(The underscore-freedom hypothesis is forced by the counterexample: labels
are joined with `_`, so channel names containing `_` can collide.) -/
theorem c7_flatten_bijection (fs cs : List String) (data : List (List ℚ))
    (hf : fs.Nodup) (hc : cs.Nodup) (hund : ∀ c ∈ cs, '_' ∉ c.data)
    (hd : data.length = fs.length) (hrow : ∀ r ∈ data, r.length = cs.length) :
    (flatten_features ⟨fs, cs, data⟩).labels.length = fs.length * cs.length ∧
    (flatten_features ⟨fs, cs, data⟩).data.length = fs.length * cs.length ∧
    (flatten_features ⟨fs, cs, data⟩).labels.Nodup ∧
    (∀ i j (hi : i < fs.length) (hj : j < cs.length),
      (flatten_features ⟨fs, cs, data⟩).labels[i * cs.length + j]? =
        some (cs.get ⟨j, hj⟩ ++ "_" ++ fs.get ⟨i, hi⟩)) ∧
    (∀ i j (hi : i < data.length) (hj : j < cs.length),
      (flatten_features ⟨fs, cs, data⟩).data[i * cs.length + j]? =
        (data.get ⟨i, hi⟩)[j]?) := by
  have hlab : (flatten_features ⟨fs, cs, data⟩).labels =
      fs.flatMap (fun f => cs.map (fun c => c ++ "_" ++ f)) := rfl
  have hdat : (flatten_features ⟨fs, cs, data⟩).data = data.flatten := rfl
  refine ⟨?_, ?_, ?_, ?_, ?_⟩
  · rw [hlab, length_flatMap_const _ cs.length fs (fun x _ => by simp)]
  · have h1 : data.flatten = data.flatMap id := (List.flatMap_id data).symm
    rw [hdat, h1, length_flatMap_const id cs.length data (fun r hr => hrow r hr), hd]
  · rw [hlab]
    exact flatten_labels_nodup fs cs hf hc hund
  · intro i j hi hj
    rw [hlab, getElem?_flatMap_const _ cs.length fs i j hi (fun x _ => by simp) hj]
    simp only [List.getElem?_map]
    rw [List.getElem?_eq_getElem hj]
    rfl
  · intro i j hi hj
    have h1 : data.flatten = data.flatMap id := (List.flatMap_id data).symm
    rw [hdat, h1,
      getElem?_flatMap_const id cs.length data i j hi (fun r hr => hrow r hr) hj]
    rfl

/-- C7 (counterexample to the claim as stated): with the distinct feature
labels ["b_c", "c"] and distinct channel labels ["a", "a_b"], the flatten
operation produces the label "a_b_c" twice, so the output labels are not
duplicate-free and the label set is not in bijection with the
(feature, channel) pairs. -/
theorem c7_counterexample :
    (["b_c", "c"] : List String).Nodup ∧
    (["a", "a_b"] : List String).Nodup ∧
    (flatten_features ⟨["b_c", "c"], ["a", "a_b"], [[1, 2], [3, 4]]⟩).labels =
      ["a_b_c", "a_b_b_c", "a_c", "a_b_c"] ∧
    ¬ (flatten_features ⟨["b_c", "c"], ["a", "a_b"], [[1, 2], [3, 4]]⟩).labels.Nodup :=
  ⟨by decide, by decide, rfl, by decide⟩

/-- Witness for the amended C7 on a concrete 2×2 array with
underscore-free channel names. -/
theorem c7_flatten_bijection_witness :
    (flatten_features ⟨["min", "max"], ["x", "y"], [[1, 2], [3, 4]]⟩).labels.length = 4 ∧
    (flatten_features ⟨["min", "max"], ["x", "y"], [[1, 2], [3, 4]]⟩).labels.Nodup ∧
    (flatten_features ⟨["min", "max"], ["x", "y"], [[1, 2], [3, 4]]⟩).labels[1 * 2 + 1]? =
      some "y_max" ∧
    (flatten_features ⟨["min", "max"], ["x", "y"], [[1, 2], [3, 4]]⟩).data[1 * 2 + 1]? =
      some 4 := by
  have h := c7_flatten_bijection ["min", "max"] ["x", "y"] [[1, 2], [3, 4]]
    (by decide) (by decide) (by decide) rfl (by decide)
  refine ⟨h.1, h.2.2.1, ?_, ?_⟩
  · have := h.2.2.2.1 1 1 (by decide) (by decide)
    simpa using this
  · have := h.2.2.2.2 1 1 (by decide) (by decide)
    simpa using this

/-- The label list `TimeSeriesFeatures` produces depends only on the
channel labels. -/
lemma ts_calculate_labels (std_fn : List ℚ → ℚ) (channels : List String)
    (data : List (List (Option ℚ))) :
    (ts_calculate std_fn channels data).labels = tsLabels channels := rfl

/-- `tsLabels` is inhabited for a nonempty channel list. -/
lemma tsLabels_ne_nil (channels : List String) (h : channels ≠ []) :
    ∃ x, x ∈ tsLabels channels := by
  cases channels with
  | nil => exact absurd rfl h
  | cons ch rest =>
      refine ⟨ch ++ "_" ++ "min", ?_⟩
      unfold tsLabels tsFeatureNames
      exact List.mem_flatMap.mpr ⟨"min", by simp,
        List.mem_map.mpr ⟨ch, List.mem_cons_self ch rest, rfl⟩⟩

/-- C2 (amended): `PhaseTimeSeriesFeatures._calculate` returns the stance
feature set concatenated with the swing feature set along the feature
axis, but the coordinate labels of BOTH sets are the original unsuffixed
`TimeSeriesFeatures` labels: the `_swing` relabelling is computed and
discarded (`assign_coords` returns a copy that is never kept), so the
concatenated result repeats the same label list twice and — for any
nonempty channel list — contains duplicate labels and no `_swing` suffix. -/
theorem c2_phase_labels_unsuffixed (std_fn : List ℚ → ℚ) (tr : PTrial)
    (arr : DataArray1) (h : phase_calculate std_fn tr = .ok arr) :
    arr.labels = tsLabels tr.channels ++ tsLabels tr.channels ∧
    (tr.channels ≠ [] → ¬ arr.labels.Nodup) := by
  have harr : arr.labels = tsLabels tr.channels ++ tsLabels tr.channels := by
    unfold phase_calculate at h
    cases hev : tr.events with
    | none =>
        rw [hev] at h
        dsimp only at h
        cases h
    | some tbl =>
        rw [hev] at h
        dsimp only at h
        cases hfo : ((tbl.rows.filter (fun r => r.context == tr.context)).filter
            (fun r => r.label == EventLabel.footOff)).get? 0 with
        | none =>
            rw [hfo] at h
            dsimp only at h
            cases h
        | some r =>
            rw [hfo] at h
            dsimp only at h
            cases ht0 : tr.times.get? 0 with
            | none =>
                rw [ht0] at h
                dsimp only at h
                cases h
            | some t0 =>
                rw [ht0] at h
                cases htl : tr.times.getLast? with
                | none =>
                    rw [htl] at h
                    dsimp only at h
                    cases h
                | some tl =>
                    rw [htl] at h
                    dsimp only at h
                    cases h
                    rfl
  refine ⟨harr, fun hne hnd => ?_⟩
  obtain ⟨x, hx⟩ := tsLabels_ne_nil tr.channels hne
  rw [harr] at hnd
  exact (List.disjoint_of_nodup_append hnd) hx hx

/-- C2 (counterexample to the claim as stated): on a concrete single-channel
cycle, neither the stance nor the swing feature set carries a `_swing`
suffix — the labels are the unsuffixed TimeSeries labels repeated, and in
particular the stance minimum is labelled "ch_min", not "min_swing". -/
theorem c2_counterexample :
    (phase_calculate (fun _ => 0)
        ⟨["ch"], [0, 1, 2], [[some 1, some 2, some 3]],
          some ⟨[⟨"L", .footOff, 1⟩], "L", 0⟩, "L"⟩).map DataArray1.labels =
      .ok ["ch_min", "ch_max", "ch_mean", "ch_median", "ch_std", "ch_amplitude",
           "ch_min", "ch_max", "ch_mean", "ch_median", "ch_std", "ch_amplitude"] ∧
    "min_swing" ∉ ["ch_min", "ch_max", "ch_mean", "ch_median", "ch_std",
      "ch_amplitude", "ch_min", "ch_max", "ch_mean", "ch_median", "ch_std",
      "ch_amplitude"] ∧
    "ch_min_swing" ∉ ["ch_min", "ch_max", "ch_mean", "ch_median", "ch_std",
      "ch_amplitude", "ch_min", "ch_max", "ch_mean", "ch_median", "ch_std",
      "ch_amplitude"] :=
  ⟨rfl, by decide, by decide⟩

/-- Witness for the amended C2 at the same concrete cycle. -/
theorem c2_phase_labels_unsuffixed_witness :
    ∃ arr, phase_calculate (fun _ => 0)
        ⟨["ch"], [0, 1, 2], [[some 1, some 2, some 3]],
          some ⟨[⟨"L", .footOff, 1⟩], "L", 0⟩, "L"⟩ = .ok arr ∧
      arr.labels = tsLabels ["ch"] ++ tsLabels ["ch"] ∧ ¬ arr.labels.Nodup := by
  have hok : ∃ arr, phase_calculate (fun _ => 0)
      ⟨["ch"], [0, 1, 2], [[some 1, some 2, some 3]],
        some ⟨[⟨"L", .footOff, 1⟩], "L", 0⟩, "L"⟩ = .ok arr := ⟨_, rfl⟩
  obtain ⟨arr, harr⟩ := hok
  have h := c2_phase_labels_unsuffixed (fun _ => 0) _ arr harr
  exact ⟨arr, harr, h.1, h.2 (by simp)⟩

/-- C5: For every cycle with a valid event table, the step_length metric
equals the Euclidean distance between the projections of the ipsi and
contra forefoot marker positions — each sampled at the final event time
with nearest-neighbour selection — onto the normalized progression
vector. -/
theorem c5_step_length_is_projected_distance (ev : Option EventTable)
    (ipsiMarker contraMarker : MarkerSeries) (progression : Point)
    (t0 t1 t2 t3 t4 : ℚ) (ipsiPt contraPt : Point)
    (hev : get_event_times ev = .ok (t0, t1, t2, t3, t4))
    (hip : nearestSel ipsiMarker t4 = some ipsiPt)
    (hcp : nearestSel contraMarker t4 = some contraPt) :
    calculate_step_length ev ipsiMarker contraMarker progression =
      .ok (calculate_distance
        (project_point_on_vector (toR ipsiPt) (normalize_vector (toR progression)))
        (project_point_on_vector (toR contraPt) (normalize_vector (toR progression)))) := by
  unfold calculate_step_length
  rw [hev, exceptBindOk]
  dsimp only
  rw [hip, hcp]

/-- Witness for C5: the synthetic cycle of the specification — ipsi marker
at (0,0,0) and contra marker at (1,0,0) at the final event time, with
progression vector (1,0,0) — yields step_length = 1 exactly. -/
theorem c5_step_length_is_projected_distance_witness :
    calculate_step_length
      (some ⟨[⟨"Left", .footStrike, 0⟩, ⟨"Right", .footOff, 1/4⟩,
        ⟨"Right", .footStrike, 1/2⟩, ⟨"Left", .footOff, 3/4⟩,
        ⟨"Left", .footStrike, 1⟩], "Left", 0⟩)
      [(1, (0, 0, 0))] [(1, (1, 0, 0))] (1, 0, 0) = .ok 1 := by
  have h := c5_step_length_is_projected_distance
    (some ⟨[⟨"Left", .footStrike, 0⟩, ⟨"Right", .footOff, 1/4⟩,
      ⟨"Right", .footStrike, 1/2⟩, ⟨"Left", .footOff, 3/4⟩,
      ⟨"Left", .footStrike, 1⟩], "Left", 0⟩)
    [(1, (0, 0, 0))] [(1, (1, 0, 0))] (1, 0, 0)
    0 (1/4) (1/2) (3/4) 1 (0, 0, 0) (1, 0, 0) rfl rfl rfl
  rw [h]
  have hsq : Real.sqrt ((1 : ℝ) * 1 + 0 * 0 + 0 * 0) = 1 := by
    norm_num [Real.sqrt_one]
  simp only [calculate_distance, project_point_on_vector, normalize_vector,
    normR, dotR, toR]
  push_cast
  rw [hsq]
  norm_num [Real.sqrt_one]

/-- The running minimum of `minByKey`'s fold stays in the candidate set. -/
lemma foldl_minBy_mem (k : Nat → ℚ) : ∀ (l : List Nat) (b : Nat),
    l.foldl (fun best i => if k i < k best then i else best) b ∈ b :: l := by
  intro l
  induction l with
  | nil => intro b; simp
  | cons x xs ih =>
      intro b
      simp only [List.foldl_cons]
      by_cases hxb : k x < k b
      · rw [if_pos hxb]
        rcases List.mem_cons.mp (ih x) with he | hm
        · rw [he]
          exact List.mem_cons_of_mem b (List.mem_cons_self x xs)
        · exact List.mem_cons_of_mem b (List.mem_cons_of_mem x hm)
      · rw [if_neg hxb]
        rcases List.mem_cons.mp (ih b) with he | hm
        · rw [he]
          exact List.mem_cons_self b (x :: xs)
        · exact List.mem_cons_of_mem b (List.mem_cons_of_mem x hm)

/-- The running minimum of `minByKey`'s fold has the least key. -/
lemma foldl_minBy_le (k : Nat → ℚ) : ∀ (l : List Nat) (b : Nat),
    k (l.foldl (fun best i => if k i < k best then i else best) b) ≤ k b ∧
    ∀ j ∈ l, k (l.foldl (fun best i => if k i < k best then i else best) b) ≤ k j := by
  intro l
  induction l with
  | nil => intro b; exact ⟨le_refl _, by simp⟩
  | cons x xs ih =>
      intro b
      simp only [List.foldl_cons]
      by_cases hxb : k x < k b
      · rw [if_pos hxb]
        refine ⟨(ih x).1.trans (le_of_lt hxb), ?_⟩
        intro j hj
        rcases List.mem_cons.mp hj with rfl | hm
        · exact (ih j).1
        · exact (ih x).2 j hm
      · rw [if_neg hxb]
        refine ⟨(ih b).1, ?_⟩
        intro j hj
        rcases List.mem_cons.mp hj with rfl | hm
        · exact (ih b).1.trans (le_of_not_lt hxb)
        · exact (ih b).2 j hm

/-- Python's `min(l, key=k)` returns a member attaining the least key. -/
lemma minByKey_spec (k : Nat → ℚ) (l : List Nat) (i : Nat)
    (h : minByKey k l = some i) : i ∈ l ∧ ∀ j ∈ l, k i ≤ k j := by
  cases l with
  | nil => cases h
  | cons x xs =>
      simp only [minByKey, Option.some.injEq] at h
      subst h
      constructor
      · exact foldl_minBy_mem k xs x
      · intro j hj
        rcases List.mem_cons.mp hj with he | hm
        · rw [he]
          exact (foldl_minBy_le k xs x).1
        · exact (foldl_minBy_le k xs x).2 j hm

/-- `min(l, key=k)` succeeds on any nonempty list. -/
lemma minByKey_isSome (k : Nat → ℚ) (l : List Nat) (h : l ≠ []) :
    ∃ i, minByKey k l = some i := by
  cases l with
  | nil => exact absurd rfl h
  | cons x xs => exact ⟨_, rfl⟩

/-- The qualifying set is empty exactly when no local minimum satisfies
both qualifying conditions. -/
lemma mtcQualifying_eq_nil_iff (toe_z heel_z toes_vel : List ℚ) (thr : ℚ) :
    mtcQualifying toe_z heel_z toes_vel thr = [] ↔
      ∀ i ∈ findLocalMinimas toe_z,
        ¬ (thr ≤ toes_vel.getD i 0 ∧ toe_z.getD i 0 ≤ heel_z.getD i 0) := by
  unfold mtcQualifying
  constructor
  · intro h i hi hcond
    have hmem : i ∈ (findLocalMinimas toe_z).filter
        (fun i => decide (thr ≤ toes_vel.getD i 0)) :=
      List.mem_filter.mpr ⟨hi, by simpa using hcond.1⟩
    have : i ∈ ((findLocalMinimas toe_z).filter
        (fun i => decide (thr ≤ toes_vel.getD i 0))).filter
          (fun i => decide (toe_z.getD i 0 ≤ heel_z.getD i 0)) :=
      List.mem_filter.mpr ⟨hmem, by simpa using hcond.2⟩
    rw [h] at this
    cases this
  · intro h
    rw [List.filter_eq_nil_iff]
    intro i hi
    have hi' := List.mem_filter.mp hi
    have hcond := h i hi'.1
    intro hz
    exact hcond ⟨by simpa using hi'.2, by simpa using hz⟩

/-- The swing-window vertical trajectory of a marker, for stating C6. -/
def mtcWindowZ (m : MarkerSeries) (t3 t4 : ℚ) : List ℚ :=
  zOf (sliceSeries m t3 t4)

/-- The swing-window averaged toe velocity, for stating C6. -/
def mtcVel (speed_norm : MarkerSeries → List ℚ) (m2 m5 : MarkerSeries)
    (t3 t4 : ℚ) : List ℚ :=
  toesVelOf speed_norm (sliceSeries m2 t3 t4) (sliceSeries m5 t3 t4)

/-- The qualifying minima of one forefoot marker, for stating C6. -/
def mtcQualOf (speed_norm : MarkerSeries → List ℚ) (m2 m5 hl toe : MarkerSeries)
    (t3 t4 : ℚ) : List Nat :=
  mtcQualifying (mtcWindowZ toe t3 t4) (mtcWindowZ hl t3 t4)
    (mtcVel speed_norm m2 m5 t3 t4)
    (quantile05 (mtcVel speed_norm m2 m5 t3 t4))

/-- Once the event times are extracted and the averaged velocity is
nonempty, the toe-clearance computation reduces to the four-way match on
the two qualifying-minimum searches. -/
lemma mtc_reduce (speed_norm : MarkerSeries → List ℚ)
    (ev : Option EventTable) (m2 m5 hl : MarkerSeries)
    (t0 t1 t2 t3 t4 : ℚ)
    (hev : get_event_times ev = .ok (t0, t1, t2, t3, t4))
    (hne : mtcVel speed_norm m2 m5 t3 t4 ≠ []) :
    calculate_minimal_toe_clearance speed_norm ev m2 m5 hl =
      (match minByKey (fun i => (mtcWindowZ m2 t3 t4).getD i 0)
          (mtcQualOf speed_norm m2 m5 hl m2 t3 t4),
        minByKey (fun i => (mtcWindowZ m5 t3 t4).getD i 0)
          (mtcQualOf speed_norm m2 m5 hl m5 t3 t4) with
      | none, none => .ok none
      | none, some i => .ok (some ((mtcWindowZ m5 t3 t4).getD i 0))
      | some i, none => .ok (some ((mtcWindowZ m2 t3 t4).getD i 0))
      | some i, some j => .ok (some (min ((mtcWindowZ m2 t3 t4).getD i 0)
          ((mtcWindowZ m5 t3 t4).getD j 0)))) := by
  have hne' : toesVelOf speed_norm (sliceSeries m2 t3 t4) (sliceSeries m5 t3 t4) ≠ [] := hne
  unfold calculate_minimal_toe_clearance
  rw [hev, exceptBindOk]
  dsimp only
  rw [if_neg hne']
  rfl

/-- C6: For every cycle with a valid event table and a nonempty swing
sub-window, if no local minimum of either forefoot marker's vertical
trajectory satisfies both qualifying conditions (averaged toe velocity at
the sample at least the median-velocity threshold, and marker at or below
heel height at that sample), the minimal_toe_clearance metric is
not-a-number (the `none` sentinel) and the calculation does not raise; if
exactly one marker has a qualifying minimum, that marker's smallest
qualifying vertical value is used. -/
theorem c6_mtc_nan_policy (speed_norm : MarkerSeries → List ℚ)
    (ev : Option EventTable) (m2 m5 hl : MarkerSeries)
    (t0 t1 t2 t3 t4 : ℚ)
    (hev : get_event_times ev = .ok (t0, t1, t2, t3, t4))
    (hne : mtcVel speed_norm m2 m5 t3 t4 ≠ []) :
    ((∀ i ∈ findLocalMinimas (mtcWindowZ m2 t3 t4),
        ¬ (quantile05 (mtcVel speed_norm m2 m5 t3 t4) ≤
              (mtcVel speed_norm m2 m5 t3 t4).getD i 0 ∧
            (mtcWindowZ m2 t3 t4).getD i 0 ≤ (mtcWindowZ hl t3 t4).getD i 0)) →
      (∀ i ∈ findLocalMinimas (mtcWindowZ m5 t3 t4),
        ¬ (quantile05 (mtcVel speed_norm m2 m5 t3 t4) ≤
              (mtcVel speed_norm m2 m5 t3 t4).getD i 0 ∧
            (mtcWindowZ m5 t3 t4).getD i 0 ≤ (mtcWindowZ hl t3 t4).getD i 0)) →
      calculate_minimal_toe_clearance speed_norm ev m2 m5 hl = .ok none) ∧
    ((∀ i ∈ findLocalMinimas (mtcWindowZ m2 t3 t4),
        ¬ (quantile05 (mtcVel speed_norm m2 m5 t3 t4) ≤
              (mtcVel speed_norm m2 m5 t3 t4).getD i 0 ∧
            (mtcWindowZ m2 t3 t4).getD i 0 ≤ (mtcWindowZ hl t3 t4).getD i 0)) →
      mtcQualOf speed_norm m2 m5 hl m5 t3 t4 ≠ [] →
      ∃ i, i ∈ mtcQualOf speed_norm m2 m5 hl m5 t3 t4 ∧
        calculate_minimal_toe_clearance speed_norm ev m2 m5 hl =
          .ok (some ((mtcWindowZ m5 t3 t4).getD i 0)) ∧
        ∀ j ∈ mtcQualOf speed_norm m2 m5 hl m5 t3 t4,
          (mtcWindowZ m5 t3 t4).getD i 0 ≤ (mtcWindowZ m5 t3 t4).getD j 0) ∧
    ((∀ i ∈ findLocalMinimas (mtcWindowZ m5 t3 t4),
        ¬ (quantile05 (mtcVel speed_norm m2 m5 t3 t4) ≤
              (mtcVel speed_norm m2 m5 t3 t4).getD i 0 ∧
            (mtcWindowZ m5 t3 t4).getD i 0 ≤ (mtcWindowZ hl t3 t4).getD i 0)) →
      mtcQualOf speed_norm m2 m5 hl m2 t3 t4 ≠ [] →
      ∃ i, i ∈ mtcQualOf speed_norm m2 m5 hl m2 t3 t4 ∧
        calculate_minimal_toe_clearance speed_norm ev m2 m5 hl =
          .ok (some ((mtcWindowZ m2 t3 t4).getD i 0)) ∧
        ∀ j ∈ mtcQualOf speed_norm m2 m5 hl m2 t3 t4,
          (mtcWindowZ m2 t3 t4).getD i 0 ≤ (mtcWindowZ m2 t3 t4).getD j 0) := by
  have hred := mtc_reduce speed_norm ev m2 m5 hl t0 t1 t2 t3 t4 hev hne
  refine ⟨?_, ?_, ?_⟩
  · intro h2 h5
    have h2' : mtcQualOf speed_norm m2 m5 hl m2 t3 t4 = [] :=
      (mtcQualifying_eq_nil_iff _ _ _ _).mpr h2
    have h5' : mtcQualOf speed_norm m2 m5 hl m5 t3 t4 = [] :=
      (mtcQualifying_eq_nil_iff _ _ _ _).mpr h5
    rw [hred, h2', h5']
    rfl
  · intro h2 h5ne
    have h2' : mtcQualOf speed_norm m2 m5 hl m2 t3 t4 = [] :=
      (mtcQualifying_eq_nil_iff _ _ _ _).mpr h2
    obtain ⟨i, hi⟩ := minByKey_isSome
      (fun i => (mtcWindowZ m5 t3 t4).getD i 0)
      (mtcQualOf speed_norm m2 m5 hl m5 t3 t4) h5ne
    have hspec := minByKey_spec _ _ _ hi
    refine ⟨i, hspec.1, ?_, hspec.2⟩
    rw [hred, h2', hi]
    rfl
  · intro h5 h2ne
    have h5' : mtcQualOf speed_norm m2 m5 hl m5 t3 t4 = [] :=
      (mtcQualifying_eq_nil_iff _ _ _ _).mpr h5
    obtain ⟨i, hi⟩ := minByKey_isSome
      (fun i => (mtcWindowZ m2 t3 t4).getD i 0)
      (mtcQualOf speed_norm m2 m5 hl m2 t3 t4) h2ne
    have hspec := minByKey_spec _ _ _ hi
    refine ⟨i, hspec.1, ?_, hspec.2⟩
    rw [hred, h5', hi]
    rfl

/-- Witness for C6: a swing window whose toe trajectories are strictly
increasing has no local minima at all, so neither marker qualifies and the
toe-clearance computation returns the not-a-number sentinel. -/
theorem c6_mtc_nan_policy_witness :
    calculate_minimal_toe_clearance (fun l => l.map (fun _ => 0))
      (some ⟨[⟨"L", .footStrike, 0⟩, ⟨"R", .footOff, 1⟩, ⟨"R", .footStrike, 2⟩,
        ⟨"L", .footOff, 3⟩, ⟨"L", .footStrike, 5⟩], "L", 0⟩)
      [(3, (0, 0, 1)), (4, (0, 0, 2)), (5, (0, 0, 3))]
      [(3, (0, 0, 1)), (4, (0, 0, 2)), (5, (0, 0, 3))]
      [(3, (0, 0, 0)), (4, (0, 0, 0)), (5, (0, 0, 0))] = .ok none := by
  have h := c6_mtc_nan_policy (fun l => l.map (fun _ => 0))
    (some ⟨[⟨"L", .footStrike, 0⟩, ⟨"R", .footOff, 1⟩, ⟨"R", .footStrike, 2⟩,
      ⟨"L", .footOff, 3⟩, ⟨"L", .footStrike, 5⟩], "L", 0⟩)
    [(3, (0, 0, 1)), (4, (0, 0, 2)), (5, (0, 0, 3))]
    [(3, (0, 0, 1)), (4, (0, 0, 2)), (5, (0, 0, 3))]
    [(3, (0, 0, 0)), (4, (0, 0, 0)), (5, (0, 0, 0))]
    0 1 2 3 5 rfl (by decide)
  exact h.1 (by decide) (by decide)
